import Mathlib

/-!
# Verification of the Netflix EDA notebook (`Netflix_Case_Study.ipynb`)

A shallow embedding of the notebook's cleaning, feature-extraction and
aggregation pipeline. Rows of the pandas DataFrame are modelled as records of
optional strings (a missing CSV cell is `none`, matching pandas `NaN`), and
each notebook cell that transforms the table becomes a pure Lean function.

Python builtins used by the notebook (`str.split`, `str.strip`,
`str.endswith`, the `in` substring test, `int(...)`, `float(...)`) are
modelled at the `List Char` level by the `py*` functions below. Modelling
simplifications, stated once here: whitespace is `Char.isWhitespace`
(Python additionally treats `\x0b`/`\f` as whitespace); `int(...)` and
`float(...)` are modelled for optionally signed decimal numerals (Python
additionally accepts underscore digit grouping, and `float` accepts
exponents and `inf`/`nan`). None of the claims nor counterexamples below
depend on these corners.
-/

namespace NetflixEDA

/-- The whitespace test used by Python `str.split()` / `str.strip()`. -/
def isW (c : Char) : Bool := c.isWhitespace

/-- Model of Python `str.split()` (no separator): maximal runs of
non-whitespace characters, in order; no empty tokens. -/
def pySplitWsL : List Char → List (List Char)
  | [] => []
  | c :: t =>
    if isW c then pySplitWsL t
    else
      match t with
      | [] => [[c]]
      | d :: t' =>
        if isW d then [c] :: pySplitWsL (d :: t')
        else
          match pySplitWsL (d :: t') with
          | [] => [[c]]
          | h :: hs => (c :: h) :: hs

/-- Drop trailing whitespace (the right half of Python `str.strip()`). -/
def rdropWs (l : List Char) : List Char := (l.reverse.dropWhile isW).reverse

/-- Model of Python `str.strip()` (no argument): drop leading and trailing
whitespace. -/
def pyStripL (l : List Char) : List Char := rdropWs (l.dropWhile isW)

/-- Model of the Python substring test `needle in hay`. -/
def pyContainsL (needle : List Char) : List Char → Bool
  | [] => needle.isEmpty
  | c :: t => needle.isPrefixOf (c :: t) || pyContainsL needle t

/-- Fuelled worker for `pySplitSepL`; the fuel only bounds the recursion
depth and is always at least the list length at every call site. -/
def pySplitSepF (s : Char) (srest : List Char) : Nat → List Char → List (List Char)
  | _, [] => [[]]
  | 0, _ :: _ => [[]]
  | fuel + 1, c :: t =>
    if (s :: srest).isPrefixOf (c :: t) then
      [] :: pySplitSepF s srest fuel (t.drop srest.length)
    else
      match pySplitSepF s srest fuel t with
      | [] => [[c]]
      | h :: hs => (c :: h) :: hs

/-- Model of Python `str.split(sep)` for a non-empty separator `s :: srest`:
split at each leftmost non-overlapping occurrence of the separator; empty
parts are kept (so `"".split(sep) = [""]`). -/
def pySplitSepL (s : Char) (srest : List Char) (l : List Char) : List (List Char) :=
  pySplitSepF s srest l.length l

/-- Fuelled worker for `pyCountSepL`. -/
def pyCountSepF (s : Char) (srest : List Char) : Nat → List Char → Nat
  | _, [] => 0
  | 0, _ :: _ => 0
  | fuel + 1, c :: t =>
    if (s :: srest).isPrefixOf (c :: t) then
      pyCountSepF s srest fuel (t.drop srest.length) + 1
    else
      pyCountSepF s srest fuel t

/-- Number of leftmost non-overlapping occurrences of the separator
`s :: srest`, matching the splitting walk of `pySplitSepL`. -/
def pyCountSepL (s : Char) (srest : List Char) (l : List Char) : Nat :=
  pyCountSepF s srest l.length l

/-- Decimal value of a digit string. -/
def natOfDigits (l : List Char) : Nat := l.foldl (fun n c => 10 * n + (c.toNat - 48)) 0

/-- Non-empty and all decimal digits. -/
def isDigitsL (l : List Char) : Bool := !l.isEmpty && l.all (·.isDigit)

/-- Model of Python `int(token)` on a whitespace-free token: an optionally
signed non-empty run of decimal digits; anything else raises `ValueError`
(modelled as `none`). -/
def pythonIntL? (l : List Char) : Option Int :=
  match l with
  | '-' :: t => if isDigitsL t then some (-(natOfDigits t : Int)) else none
  | '+' :: t => if isDigitsL t then some (natOfDigits t : Int) else none
  | _ => if isDigitsL l then some (natOfDigits l : Int) else none

/-- Model of Python `float(token)` on a whitespace-free token: an optionally
signed decimal numeral with an optional fractional part (`"90"`, `"-5"`,
`"5."`, `".5"`, `"90.25"`); anything else raises `ValueError` (modelled as
`none`). -/
def pythonFloatL? (l : List Char) : Option ℚ :=
  let (neg, l₁) :=
    match l with
    | '-' :: t => (true, t)
    | '+' :: t => (false, t)
    | _ => (false, l)
  let ip := l₁.takeWhile (·.isDigit)
  let rest := l₁.dropWhile (·.isDigit)
  let sgn : ℚ → ℚ := fun q => if neg then -q else q
  match rest with
  | [] =>
    if ip.isEmpty then none
    else some (sgn (natOfDigits ip : ℚ))
  | '.' :: fr =>
    if fr.all (·.isDigit) && (!ip.isEmpty || !fr.isEmpty) then
      some (sgn ((natOfDigits ip : ℚ) + (natOfDigits fr : ℚ) / ((10 : ℚ) ^ fr.length)))
    else none
  | _ => none

/-- A Python value reaching the `duration` parsers through `Series.apply`:
either a string cell or the pandas missing-value marker `NaN`. -/
inductive PyVal where
  | str : String → PyVal
  | nan : PyVal
deriving DecidableEq

/-- A Python exception escaping one of the parsers. -/
inductive PyErr where
  | valueError : PyErr
  | indexError : PyErr
deriving DecidableEq

/-- The pandas cell held by an optional string column. -/
def toPyVal : Option String → PyVal
  | some s => .str s
  | none => .nan

/-- `parse_movie_duration` from the notebook:
`if isinstance(x, str) and x.strip().endswith('min'): return float(x.strip().split()[0]) else: return np.nan`.
`float` on a non-numeric token raises `ValueError` (uncaught); `split()[0]`
on an empty token list would raise `IndexError`. -/
def parse_movie_duration (x : PyVal) : Except PyErr (Option ℚ) :=
  match x with
  | .nan => .ok none
  | .str s =>
    let l := pyStripL s.toList
    if "min".toList.isSuffixOf l then
      match (pySplitWsL l).head? with
      | none => .error .indexError
      | some tok =>
        match pythonFloatL? tok with
        | some q => .ok (some q)
        | none => .error .valueError
    else .ok none

/-- `parse_seasons` from the notebook:
`if isinstance(x, str) and 'Season' in x: num = x.split()[0]; try: return int(num) except ValueError: return np.nan` and `return np.nan` otherwise.
The `try`/`except ValueError` is the `pythonIntL? = none` branch. -/
def parse_seasons (x : PyVal) : Except PyErr (Option Int) :=
  match x with
  | .nan => .ok none
  | .str s =>
    if pyContainsL "Season".toList s.toList then
      match (pySplitWsL s.toList).head? with
      | none => .error .indexError
      | some num =>
        match pythonIntL? num with
        | some n => .ok (some n)
        | none => .ok none
    else .ok none

/-- One row of the catalog CSV as loaded by `pd.read_csv`: every column is a
string column in which a missing cell is pandas `NaN`, modelled as `none`. -/
structure Row where
  title : Option String
  type : Option String
  director : Option String
  cast : Option String
  country : Option String
  date_added : Option String
  rating : Option String
  duration : Option String
  listed_in : Option String
deriving DecidableEq

/-- The `fillna` half of the cleaning cell:
`df['country'] = df['country'].fillna('No Data')` and likewise for
`cast` and `director`. -/
def fillRow (r : Row) : Row :=
  { r with
    country := some (r.country.getD "No Data")
    cast := some (r.cast.getD "No Data")
    director := some (r.director.getD "No Data") }

/-- The cleaning cell: `df.dropna(subset=['rating', 'duration', 'date_added'])`
followed by the three `fillna` substitutions. -/
def cleanTable (df : List Row) : List Row :=
  (df.filter (fun r => r.rating.isSome && r.duration.isSome && r.date_added.isSome)).map fillRow

/-- A parsed `date_added` value. -/
structure DateYMD where
  year : Nat
  month : Nat
  day : Nat
deriving DecidableEq

/-- Month-name lookup for the `%B` directive. -/
def monthIndex? (m : String) : Option Nat :=
  if m = "January" then some 1
  else if m = "February" then some 2
  else if m = "March" then some 3
  else if m = "April" then some 4
  else if m = "May" then some 5
  else if m = "June" then some 6
  else if m = "July" then some 7
  else if m = "August" then some 8
  else if m = "September" then some 9
  else if m = "October" then some 10
  else if m = "November" then some 11
  else if m = "December" then some 12
  else none

/-- Gregorian month lengths, with the leap-year rule for February. -/
def daysInMonth (m y : Nat) : Nat :=
  if m = 2 then
    if y % 4 = 0 && (y % 100 ≠ 0 || y % 400 = 0) then 29 else 28
  else if m = 4 || m = 6 || m = 9 || m = 11 then 30
  else 31

/-- Model of `pd.to_datetime(s, format='%B %d, %Y', errors='coerce')` on one
cell: the string must be exactly `<month name> <1-2 digit day>, <4 digit
year>` and name a valid calendar date; any failure coerces to `NaT`
(`none`), never an exception. (The C `strptime` is additionally
case-insensitive in the month name and tolerant of repeated whitespace;
no claim depends on that.) -/
def parseDateAdded (s : String) : Option DateYMD :=
  match pySplitSepL ',' [' '] s.toList with
  | [front, yearCs] =>
    if yearCs.length = 4 && isDigitsL yearCs then
      match pySplitSepL ' ' [] front with
      | [monCs, dayCs] =>
        match monthIndex? (String.mk monCs) with
        | some m =>
          if (dayCs.length = 1 || dayCs.length = 2) && isDigitsL dayCs then
            let d := natOfDigits dayCs
            let y := natOfDigits yearCs
            if 1 ≤ d ∧ d ≤ daysInMonth m y then some ⟨y, m, d⟩ else none
          else none
        | none => none
      | _ => none
    else none
  | _ => none

/-- The date-parsing cell up to the drop: each row paired with the result of
`pd.to_datetime(df['date_added'], format='%B %d, %Y', errors='coerce')`. -/
def toDatetimeCol (df : List Row) : List (Row × Option DateYMD) :=
  df.map (fun r => (r, r.date_added.bind parseDateAdded))

/-- `failed_dates = df['date_added'].isna().sum()` after the coercion. -/
def failed_dates (df : List Row) : Nat :=
  ((toDatetimeCol df).filter (fun p => p.2.isNone)).length

/-- `df = df.dropna(subset=['date_added'])` after the coercion: only the rows
whose date parsed survive. -/
def dropFailedDates (df : List Row) : List Row :=
  ((toDatetimeCol df).filter (fun p => p.2.isSome)).map Prod.fst

/-- `df[df['country'] != 'No Data']['country']`: the country column values
feeding both `unique_countries` and `top_countries`. -/
def countriesList (df : List Row) : List String :=
  (df.filter (fun r => decide (r.country ≠ some "No Data"))).filterMap (fun r => r.country)

/-- The frequency the `value_counts()` table assigns to one country value:
the number of occurrences of the (whole, unsplit) string `c` in the
sentinel-filtered country column. -/
def codeCountryCount (df : List Row) (c : String) : Nat :=
  (countriesList df).count c

/-- Distinct values of a list in first-occurrence order (the key order of a
pandas hashtable / Python dict). -/
def uniquesInOrder (l : List String) : List String :=
  l.foldl (fun acc x => if x ∈ acc then acc else acc ++ [x]) []

/-- Count-descending order on `(value, count)` pairs. -/
def countGE (p q : String × Nat) : Prop := q.2 ≤ p.2

instance : DecidableRel countGE := fun p q => inferInstanceAs (Decidable (q.2 ≤ p.2))

instance : IsTotal (String × Nat) countGE := ⟨fun a b => le_total b.2 a.2⟩

instance : IsTrans (String × Nat) countGE := ⟨fun _ _ _ hab hbc => le_trans hbc hab⟩

/-- Model of `Series.value_counts()`: each distinct value with its count,
sorted by count descending. pandas leaves the relative order of equal
counts unspecified (it sorts with an unstable quicksort); this model fixes
one concrete order, and no theorem below relies on which one. -/
def valueCounts (l : List String) : List (String × Nat) :=
  List.insertionSort countGE ((uniquesInOrder l).map (fun v => (v, l.count v)))

/-- `top_countries = df[df['country'] != 'No Data']['country'].value_counts().head(10)`. -/
def top_countries (df : List Row) : List (String × Nat) :=
  (valueCounts (countriesList df)).take 10

/-- Strip an exploded token, as a `String`. -/
def stripStr (tk : List Char) : String := String.mk (pyStripL tk)

/-- The genre explosion loop:
`for cell in df['listed_in'].dropna(): for genre in cell.split(','): all_genres.append(genre.strip())`. -/
def allGenres (df : List Row) : List String :=
  (df.filterMap (fun r => r.listed_in)).flatMap
    (fun s => (pySplitSepL ',' [] s.toList).map stripStr)

/-- The cast explosion:
`cast_series = df[df['cast'] != 'No Data']['cast'].str.split(', ')` and
`flat_cast_list = [actor.strip() for sublist in cast_series for actor in sublist]`. -/
def flatCast (df : List Row) : List String :=
  ((df.filter (fun r => decide (r.cast ≠ some "No Data"))).filterMap (fun r => r.cast)).flatMap
    (fun s => (pySplitSepL ',' [' '] s.toList).map stripStr)

/-- `Series.apply` over an `Except`-valued cell function: the first raised
exception aborts the whole apply, otherwise the list of results. -/
def exceptMapList (f : α → Except PyErr β) : List α → Except PyErr (List β)
  | [] => .ok []
  | a :: t =>
    match f a with
    | .error e => .error e
    | .ok b =>
      match exceptMapList f t with
      | .error e => .error e
      | .ok bs => .ok (b :: bs)

/-- `df_movies = df[df['type'] == 'Movie'].copy()` followed by
`df_movies['duration_int'] = df_movies['duration'].apply(parse_movie_duration)`:
each Movie row paired with its parsed duration (before the `dropna`). -/
def moviesWithDur (df : List Row) : Except PyErr (List (Row × Option ℚ)) :=
  exceptMapList
    (fun r => (parse_movie_duration (toPyVal r.duration)).map (fun v => (r, v)))
    (df.filter (fun r => decide (r.type = some "Movie")))

/-- `df_shows = df[df['type'] == 'TV Show'].copy()` followed by
`df_shows['seasons'] = df_shows['duration'].apply(parse_seasons)`. -/
def showsWithSeasons (df : List Row) : Except PyErr (List (Row × Option Int)) :=
  exceptMapList
    (fun r => (parse_seasons (toPyVal r.duration)).map (fun v => (r, v)))
    (df.filter (fun r => decide (r.type = some "TV Show")))

/-- The notebook's bindings while the duration/season cells run: the main
cleaned table `df` and the two derived tables. -/
structure NBState where
  df : List Row
  df_movies : List (Row × Option ℚ)
  df_shows : List (Row × Option Int)
deriving DecidableEq

/-- The movie-duration cell: builds `df_movies` from a copy of `df` and
drops its unparsable rows (`dropna(subset=['duration_int'])`); `df` itself
is not rebound. -/
def movieStep (st : NBState) : Except PyErr NBState :=
  match moviesWithDur st.df with
  | .error e => .error e
  | .ok l => .ok { st with df_movies := l.filter (fun p => p.2.isSome) }

/-- The season cell: builds `df_shows` from a copy of `df` and drops its
unparsable rows (`dropna(subset=['seasons'])`); `df` is not rebound. -/
def showStep (st : NBState) : Except PyErr NBState :=
  match showsWithSeasons st.df with
  | .error e => .error e
  | .ok l => .ok { st with df_shows := l.filter (fun p => p.2.isSome) }

/-- The leading whitespace-delimited token of a string's characters: what
remains of the first maximal non-whitespace run after skipping leading
whitespace (empty when the string is empty or all whitespace). -/
def firstTokL (l : List Char) : List Char :=
  (l.dropWhile isW).takeWhile (fun c => !isW c)

/-! ## Helper lemmas about the Python string-primitive models -/

theorem dropWhile_head_not (p : α → Bool) :
    ∀ l a t, List.dropWhile p l = a :: t → p a = false := by
  intro l
  induction l with
  | nil => intro a t h; simp [List.dropWhile] at h
  | cons b l ih =>
    intro a t h
    rw [List.dropWhile_cons] at h
    by_cases hb : p b
    · simp only [hb, if_true] at h
      exact ih a t h
    · simp only [hb, if_false] at h
      cases h
      simpa using hb

theorem pySplitWsL_head? : ∀ l : List Char,
    (pySplitWsL l).head? = if l.dropWhile isW = [] then none else some (firstTokL l) := by
  intro l
  induction l with
  | nil => simp [pySplitWsL, firstTokL]
  | cons c t ih =>
    cases hc : isW c with
    | true =>
      have h1 : pySplitWsL (c :: t) = pySplitWsL t := by
        rw [pySplitWsL.eq_def]
        simp [hc]
      have h2 : List.dropWhile isW (c :: t) = List.dropWhile isW t := by
        simp [List.dropWhile_cons, hc]
      have h3 : firstTokL (c :: t) = firstTokL t := by unfold firstTokL; rw [h2]
      rw [h1, h2, h3]
      exact ih
    | false =>
      cases t with
      | nil =>
        rw [pySplitWsL.eq_def]
        simp [hc, firstTokL, List.dropWhile_cons, List.takeWhile_cons]
      | cons d t' =>
        cases hd : isW d with
        | true =>
          rw [pySplitWsL.eq_def]
          simp [hc, hd, firstTokL, List.dropWhile_cons, List.takeWhile_cons]
        | false =>
          have hne : List.dropWhile isW (d :: t') = d :: t' := by
            simp [List.dropWhile_cons, hd]
          rw [hne, if_neg (List.cons_ne_nil d t')] at ih
          cases hsplit : pySplitWsL (d :: t') with
          | nil => rw [hsplit] at ih; simp at ih
          | cons h hs =>
            rw [hsplit, List.head?_cons, Option.some.injEq] at ih
            have hL : pySplitWsL (c :: d :: t') = (c :: h) :: hs := by
              rw [pySplitWsL.eq_def]
              simp [hc, hd, hsplit]
            have hdropcdt : List.dropWhile isW (c :: d :: t') = c :: d :: t' := by
              simp [List.dropWhile_cons, hc]
            rw [hL, hdropcdt, if_neg (List.cons_ne_nil _ _), List.head?_cons,
              Option.some.injEq, ih]
            unfold firstTokL
            rw [hdropcdt, hne]
            simp [List.takeWhile_cons, hc, hd]

theorem rdropWs_append_ws (m : List Char) :
    rdropWs m ++ (m.reverse.takeWhile isW).reverse = m := by
  unfold rdropWs
  rw [← List.reverse_append, List.takeWhile_append_dropWhile, List.reverse_reverse]

theorem ws_of_mem_trailing {m : List Char} {c : Char}
    (h : c ∈ (m.reverse.takeWhile isW).reverse) : isW c = true := by
  rw [List.mem_reverse] at h
  exact List.mem_takeWhile_imp h

theorem takeWhile_nonW_append {m w : List Char} (hw : ∀ c ∈ w, isW c = true) :
    (m ++ w).takeWhile (fun c => !isW c) = m.takeWhile (fun c => !isW c) := by
  induction m with
  | nil =>
    simp only [List.nil_append, List.takeWhile_nil]
    cases w with
    | nil => simp
    | cons a t => simp [List.takeWhile_cons, hw a (List.mem_cons_self a t)]
  | cons a m ih =>
    cases ha : isW a with
    | true => simp [List.takeWhile_cons, ha]
    | false => simp [List.takeWhile_cons, ha, ih]

theorem head?_pySplitWsL_strip (l : List Char) :
    (pySplitWsL (pyStripL l)).head? = (pySplitWsL l).head? := by
  rw [pySplitWsL_head?, pySplitWsL_head?]
  cases hm : l.dropWhile isW with
  | nil =>
    have h1 : pyStripL l = [] := by simp [pyStripL, hm, rdropWs]
    simp [h1]
  | cons c t =>
    have hc : isW c = false := dropWhile_head_not isW l c t hm
    have hstr : pyStripL l = rdropWs (c :: t) := by rw [pyStripL, hm]
    have hdecomp := rdropWs_append_ws (c :: t)
    cases hA : rdropWs (c :: t) with
    | nil =>
      exfalso
      rw [hA, List.nil_append] at hdecomp
      have : isW c = true := ws_of_mem_trailing (hdecomp ▸ List.mem_cons_self c t)
      rw [hc] at this
      exact Bool.false_ne_true this
    | cons a A' =>
      have hac : a = c := by
        rw [hA, List.cons_append] at hdecomp
        exact (List.cons.injEq _ _ _ _ ▸ hdecomp).1
      have hdropA : List.dropWhile isW (a :: A') = a :: A' := by
        simp [List.dropWhile_cons, hac, hc]
      have hw : ∀ ch ∈ (List.reverse (c :: t)).takeWhile isW |>.reverse, isW ch = true :=
        fun ch hch => ws_of_mem_trailing hch
      have hfl : firstTokL l = firstTokL (a :: A') := by
        unfold firstTokL
        rw [hm, hdropA]
        conv_lhs => rw [← hdecomp, hA]
        exact takeWhile_nonW_append hw
      rw [hstr, hA, hdropA, if_neg (List.cons_ne_nil a A'), if_neg (List.cons_ne_nil c t), hfl]

/-- The head of `split()` is exactly the leading whitespace-delimited token,
and it is non-empty. -/
theorem head?_pySplitWsL_eq {l tok : List Char}
    (h : (pySplitWsL l).head? = some tok) : tok = firstTokL l ∧ tok ≠ [] := by
  rw [pySplitWsL_head?] at h
  by_cases hnil : l.dropWhile isW = []
  · simp [hnil] at h
  · simp only [hnil, if_false, Option.some.injEq] at h
    subst h
    refine ⟨rfl, ?_⟩
    cases hm : l.dropWhile isW with
    | nil => exact absurd hm hnil
    | cons c t =>
      have hc : isW c = false := dropWhile_head_not isW l c t hm
      simp [firstTokL, hm, List.takeWhile_cons, hc]

theorem head?_pySplitWsL_of_firstTok {l : List Char} (h : firstTokL l ≠ []) :
    (pySplitWsL l).head? = some (firstTokL l) := by
  rw [pySplitWsL_head?]
  by_cases hnil : l.dropWhile isW = []
  · exact absurd (by simp [firstTokL, hnil]) h
  · simp [hnil]

theorem pyContainsL_head_mem {c : Char} {rest hay : List Char}
    (h : pyContainsL (c :: rest) hay = true) : c ∈ hay := by
  induction hay with
  | nil => simp [pyContainsL] at h
  | cons a t ih =>
    simp only [pyContainsL, Bool.or_eq_true] at h
    rcases h with h | h
    · simp only [List.isPrefixOf, Bool.and_eq_true, beq_iff_eq] at h
      exact h.1 ▸ List.mem_cons_self a t
    · exact List.mem_cons_of_mem _ (ih h)

/-- If a string contains `"Season"` it has a non-whitespace character, so
`split()` is non-empty and `split()[0]` cannot raise `IndexError`. -/
theorem contains_Season_head {l : List Char}
    (h : pyContainsL "Season".toList l = true) :
    (pySplitWsL l).head? = some (firstTokL l) := by
  have hmem : 'S' ∈ l := pyContainsL_head_mem (by exact h)
  apply head?_pySplitWsL_of_firstTok
  intro hft
  have hnil : l.dropWhile isW = [] := by
    cases hm : l.dropWhile isW with
    | nil => rfl
    | cons c t =>
      have hc : isW c = false := dropWhile_head_not isW l c t hm
      rw [firstTokL, hm, List.takeWhile_cons] at hft
      simp [hc] at hft
  rw [List.dropWhile_eq_nil_iff] at hnil
  have : isW 'S' = true := hnil 'S' hmem
  simp [isW, Char.isWhitespace] at this

theorem exceptMapList_ok_mem {f : α → Except PyErr β} :
    ∀ {l : List α} {l' : List β}, exceptMapList f l = .ok l' →
    ∀ b ∈ l', ∃ a ∈ l, f a = .ok b := by
  intro l
  induction l with
  | nil =>
    intro l' h b hb
    simp only [exceptMapList] at h
    cases h
    simp at hb
  | cons a t ih =>
    intro l' h b hb
    simp only [exceptMapList] at h
    cases hfa : f a with
    | error e => rw [hfa] at h; cases h
    | ok b₀ =>
      rw [hfa] at h
      cases hrec : exceptMapList f t with
      | error e => rw [hrec] at h; cases h
      | ok bs =>
        rw [hrec] at h
        cases h
        rcases List.mem_cons.mp hb with hb | hb
        · exact ⟨a, List.mem_cons_self a t, hb ▸ hfa⟩
        · rcases ih hrec b hb with ⟨a', ha', hfa'⟩
          exact ⟨a', List.mem_cons_of_mem _ ha', hfa'⟩

theorem filter_length_partition (p q : α → Bool) (hq : ∀ a, q a = !p a) :
    ∀ l : List α, (l.filter p).length + (l.filter q).length = l.length := by
  intro l
  induction l with
  | nil => simp
  | cons a t ih =>
    cases ha : p a with
    | true =>
      simp [List.filter_cons, ha, hq a]
      omega
    | false =>
      simp [List.filter_cons, ha, hq a]
      omega

theorem pySplitSepF_length (s : Char) (srest : List Char) :
    ∀ fuel l, l.length ≤ fuel →
      (pySplitSepF s srest fuel l).length = pyCountSepF s srest fuel l + 1 := by
  intro fuel
  induction fuel with
  | zero =>
    intro l hl
    have : l = [] := List.eq_nil_of_length_eq_zero (Nat.le_zero.mp hl)
    subst this
    rfl
  | succ fuel ih =>
    intro l hl
    cases l with
    | nil => rfl
    | cons c t =>
      have ht : t.length ≤ fuel := by
        simp only [List.length_cons] at hl
        omega
      cases hp : (s :: srest).isPrefixOf (c :: t) with
      | true =>
        have hdrop : (t.drop srest.length).length ≤ fuel := by
          rw [List.length_drop]
          omega
        simp only [pySplitSepF, pyCountSepF, hp, if_true, List.length_cons]
        rw [ih _ hdrop]
      | false =>
        have hrec := ih t ht
        simp [pySplitSepF, pyCountSepF, hp]
        cases hsp : pySplitSepF s srest fuel t with
        | nil => rw [hsp] at hrec; simp at hrec
        | cons h hs =>
          rw [hsp] at hrec
          simp only [List.length_cons] at hrec ⊢
          omega

theorem length_pySplitSepL (s : Char) (srest l : List Char) :
    (pySplitSepL s srest l).length = pyCountSepL s srest l + 1 :=
  pySplitSepF_length s srest l.length l le_rfl

theorem pyCountSepF_comma :
    ∀ fuel (l : List Char), l.length ≤ fuel → pyCountSepF ',' [] fuel l = l.count ',' := by
  intro fuel
  induction fuel with
  | zero =>
    intro l hl
    have : l = [] := List.eq_nil_of_length_eq_zero (Nat.le_zero.mp hl)
    subst this
    rfl
  | succ fuel ih =>
    intro l hl
    cases l with
    | nil => rfl
    | cons c t =>
      have ht : t.length ≤ fuel := by
        simp only [List.length_cons] at hl
        omega
      cases hc : (',' == c) with
      | true =>
        have hc' : ',' = c := beq_iff_eq.mp hc
        subst hc'
        have hp : [','].isPrefixOf (',' :: t) = true := by simp [List.isPrefixOf]
        simp only [pyCountSepF, hp, if_true, List.length_nil, List.drop_zero]
        rw [ih t ht, List.count_cons]
        simp
      | false =>
        have hp : [','].isPrefixOf (c :: t) = false := by
          simp [List.isPrefixOf, hc]
        simp only [pyCountSepF, hp, if_false]
        rw [ih t ht, List.count_cons]
        have hne : ¬c = ',' := fun h => by subst h; simp at hc
        simp [hc, hne]

theorem pyCountSepL_comma (l : List Char) : pyCountSepL ',' [] l = l.count ',' :=
  pyCountSepF_comma l.length l le_rfl

/-- Characterization of a successful movie-duration parse: the value is the
float of the leading whitespace-delimited token of the original string. -/
theorem parse_movie_ok_some {s : String} {q : ℚ}
    (h : parse_movie_duration (.str s) = .ok (some q)) :
    firstTokL s.toList ≠ [] ∧ pythonFloatL? (firstTokL s.toList) = some q := by
  cases hsuf : "min".toList.isSuffixOf (pyStripL s.toList) with
  | false => simp only [parse_movie_duration, hsuf] at h; simp at h
  | true =>
    cases hhead : (pySplitWsL (pyStripL s.toList)).head? with
    | none => simp only [parse_movie_duration, hsuf, hhead] at h; simp at h
    | some tok =>
      have htok : tok = firstTokL s.toList ∧ tok ≠ [] :=
        head?_pySplitWsL_eq (by rw [← head?_pySplitWsL_strip, hhead])
      cases hfq : pythonFloatL? tok with
      | none => simp only [parse_movie_duration, hsuf, hhead, hfq] at h; simp at h
      | some q' =>
        simp only [parse_movie_duration, hsuf, hhead, hfq, if_true,
          Except.ok.injEq, Option.some.injEq] at h
        exact ⟨htok.1 ▸ htok.2, by rw [← htok.1, hfq, h]⟩

/-- Characterization of `parse_seasons` on strings: it yields an integer
exactly when the string contains `"Season"` and the leading
whitespace-delimited token is an optionally signed integer numeral. -/
theorem parse_seasons_ok_some (s : String) (n : Int) :
    parse_seasons (.str s) = .ok (some n) ↔
      (pyContainsL "Season".toList s.toList = true ∧
        pythonIntL? (firstTokL s.toList) = some n) := by
  constructor
  · intro h
    cases hcon : pyContainsL "Season".toList s.toList with
    | false => simp only [parse_seasons, hcon] at h; simp at h
    | true =>
      cases hint : pythonIntL? (firstTokL s.toList) with
      | none =>
        simp only [parse_seasons, hcon, contains_Season_head hcon, hint] at h
        simp at h
      | some m =>
        simp only [parse_seasons, hcon, contains_Season_head hcon, hint, if_true,
          Except.ok.injEq, Option.some.injEq] at h
        exact ⟨rfl, by rw [h]⟩
  · rintro ⟨hcon, hint⟩
    simp only [parse_seasons, hcon, contains_Season_head hcon, hint, if_true]

/-- C10: `parse_seasons` is total — on every input value (string or not) it
returns an integer or the null marker and never raises: the `'Season' in x`
guard forces `split()` to be non-empty, and the `int(...)` call is guarded
by `try`/`except ValueError`. -/
theorem claim_C10_parse_seasons_total (x : PyVal) :
    ∃ y : Option Int, parse_seasons x = .ok y := by
  cases x with
  | nan => exact ⟨none, rfl⟩
  | str s =>
    cases hcon : pyContainsL "Season".toList s.toList with
    | false =>
      refine ⟨none, ?_⟩
      simp only [parse_seasons, hcon]
      simp
    | true =>
      cases hint : pythonIntL? (firstTokL s.toList) with
      | none =>
        exact ⟨none, by
          simp only [parse_seasons, hcon, contains_Season_head hcon, hint, if_true]⟩
      | some n =>
        exact ⟨some n, by
          simp only [parse_seasons, hcon, contains_Season_head hcon, hint, if_true]⟩

/-- C2 (code bug): on the Movie duration `"abc min"` — a string that ends in
`"min"` but whose leading token is not a number — the unguarded
`float(x.strip().split()[0])` raises `ValueError` instead of degrading to
the null marker, contradicting the stated failure policy. -/
theorem claim_C2_float_raises :
    parse_movie_duration (.str "abc min") = .error .valueError := by
  rfl

/-- C3: every row surviving the cleaner has non-null `rating`, `duration`,
`date_added`, and non-null `country`/`cast`/`director`, with the sentinel
`"No Data"` substituted exactly where the original value was absent and
present values (and all other fields) unchanged. -/
theorem claim_C3_clean_invariants (df : List Row) (r : Row) (h : r ∈ cleanTable df) :
    (r.rating.isSome ∧ r.duration.isSome ∧ r.date_added.isSome ∧
      r.country.isSome ∧ r.cast.isSome ∧ r.director.isSome) ∧
    ∃ r₀, r₀ ∈ df ∧ r = fillRow r₀ ∧
      r.title = r₀.title ∧ r.type = r₀.type ∧ r.date_added = r₀.date_added ∧
      r.rating = r₀.rating ∧ r.duration = r₀.duration ∧ r.listed_in = r₀.listed_in ∧
      (r₀.country = none → r.country = some "No Data") ∧
      (∀ c, r₀.country = some c → r.country = some c) ∧
      (r₀.cast = none → r.cast = some "No Data") ∧
      (∀ c, r₀.cast = some c → r.cast = some c) ∧
      (r₀.director = none → r.director = some "No Data") ∧
      (∀ c, r₀.director = some c → r.director = some c) := by
  unfold cleanTable at h
  rcases List.mem_map.mp h with ⟨r₀, hr₀, hfill⟩
  rcases List.mem_filter.mp hr₀ with ⟨hmem, hcond⟩
  simp only [Bool.and_eq_true] at hcond
  obtain ⟨⟨hrat, hdur⟩, hdate⟩ := hcond
  subst hfill
  refine ⟨⟨hrat, hdur, hdate, by simp [fillRow], by simp [fillRow], by simp [fillRow]⟩,
    r₀, hmem, rfl, rfl, rfl, rfl, rfl, rfl, rfl, ?_, ?_, ?_, ?_, ?_, ?_⟩
  · intro hnone; simp [fillRow, hnone]
  · intro c hc; simp [fillRow, hc]
  · intro hnone; simp [fillRow, hnone]
  · intro c hc; simp [fillRow, hc]
  · intro hnone; simp [fillRow, hnone]
  · intro c hc; simp [fillRow, hc]

/-- A raw input row with absent `director`/`cast`/`country` but all required
fields present. -/
def rowRawMissing : Row :=
  ⟨some "T1", some "Movie", none, none, none, some "January 1, 2020",
    some "PG", some "90 min", some "Drama"⟩

/-- Witness for C3 at a concrete table: the surviving row has all six fields
non-null and carries the sentinel where the original was absent. -/
theorem claim_C3_witness :
    (fillRow rowRawMissing).rating.isSome ∧
    (fillRow rowRawMissing).cast = some "No Data" := by
  have h := claim_C3_clean_invariants [rowRawMissing] (fillRow rowRawMissing) (by decide)
  rcases h with ⟨hsome, r₀, hmem, heq, _, _, _, _, _, _, _, _, hcast, _, _, _⟩
  refine ⟨hsome.1, ?_⟩
  have hr₀ : r₀ = rowRawMissing := by
    rcases List.mem_singleton.mp hmem with rfl
    rfl
  subst hr₀
  exact hcast rfl

/-- C4: every record reaching the extractor is parsed with the single fixed
format `"%B %d, %Y"`; an unparsable value becomes the null marker (not an
error), the number of parse failures plus the number of surviving rows is
the original row count (the count is taken before any row is removed), and
every row whose date failed to parse is dropped and absent from the table
all later aggregations consume. -/
theorem claim_C4_date_extraction (df : List Row) :
    failed_dates df + (dropFailedDates df).length = df.length ∧
    (∀ r ∈ dropFailedDates df, ∃ d, r.date_added.bind parseDateAdded = some d) ∧
    (∀ r ∈ df, r.date_added.bind parseDateAdded = none → r ∉ dropFailedDates df) ∧
    parseDateAdded "September 24, 2021" = some ⟨2021, 9, 24⟩ := by
  refine ⟨?_, ?_, ?_, rfl⟩
  · have hpart := filter_length_partition
      (fun p : Row × Option DateYMD => p.2.isNone)
      (fun p : Row × Option DateYMD => p.2.isSome)
      (fun a => by cases h2 : a.2 <;> simp [h2]) (toDatetimeCol df)
    unfold failed_dates dropFailedDates
    rw [List.length_map, hpart]
    unfold toDatetimeCol
    rw [List.length_map]
  · intro r hr
    unfold dropFailedDates at hr
    rcases List.mem_map.mp hr with ⟨p, hpmem, hpr⟩
    rcases List.mem_filter.mp hpmem with ⟨hpcol, hpsome⟩
    unfold toDatetimeCol at hpcol
    rcases List.mem_map.mp hpcol with ⟨r₀, _, hp⟩
    subst hp
    subst hpr
    exact Option.isSome_iff_exists.mp hpsome
  · intro r _ hnone hmem
    unfold dropFailedDates at hmem
    rcases List.mem_map.mp hmem with ⟨p, hpmem, hpr⟩
    rcases List.mem_filter.mp hpmem with ⟨hpcol, hpsome⟩
    unfold toDatetimeCol at hpcol
    rcases List.mem_map.mp hpcol with ⟨r₀, _, hp⟩
    subst hp
    subst hpr
    rw [hnone] at hpsome
    simp at hpsome

/-- A cleaned row whose `date_added` does not match the fixed format. -/
def rowBadDate : Row :=
  ⟨some "Bad", some "Movie", some "No Data", some "No Data", some "US",
    some "not a date", some "PG", some "100 min", some "Drama"⟩

/-- A cleaned row with a well-formed `date_added`. -/
def rowGoodDate : Row :=
  ⟨some "Good", some "Movie", some "No Data", some "No Data", some "US",
    some "January 1, 2020", some "PG", some "90 min", some "Drama"⟩

/-- Witness for C4 at a concrete table: the malformed date is counted and
its row is dropped. -/
theorem claim_C4_witness :
    rowBadDate ∉ dropFailedDates [rowGoodDate, rowBadDate] ∧
    failed_dates [rowGoodDate, rowBadDate] = 1 :=
  ⟨(claim_C4_date_extraction [rowGoodDate, rowBadDate]).2.2.1 rowBadDate
      (by decide) (by rfl),
    by decide⟩

/-- The country frequency assigned by the code to a non-sentinel value `c`
counts the retained rows whose whole `country` field equals `c`. -/
theorem codeCountryCount_filter (c : String) (hc : c ≠ "No Data") :
    ∀ df : List Row,
      codeCountryCount df c = (df.filter (fun r => decide (r.country = some c))).length := by
  intro df
  induction df with
  | nil => rfl
  | cons r t ih =>
    simp only [codeCountryCount, countriesList] at ih ⊢
    cases hco : r.country with
    | none =>
      rw [List.filter_cons, List.filter_cons]
      simp only [hco]
      rw [if_pos (by simp), if_neg (by simp)]
      rw [List.filterMap_cons]
      simp only [hco]
      exact ih
    | some d =>
      by_cases hdc : d = c
      · subst hdc
        rw [List.filter_cons, List.filter_cons]
        simp only [hco]
        rw [if_pos (by simp [hc]), if_pos (by simp)]
        rw [List.filterMap_cons]
        simp only [hco, List.count_cons, List.length_cons]
        rw [ih]
        simp
      · by_cases hds : d = "No Data"
        · subst hds
          rw [List.filter_cons, List.filter_cons]
          simp only [hco]
          rw [if_neg (by simp), if_neg (by simp [hdc])]
          exact ih
        · rw [List.filter_cons, List.filter_cons]
          simp only [hco]
          rw [if_pos (by simp [hds]), if_neg (by simp [hdc])]
          rw [List.filterMap_cons]
          simp only [hco, List.count_cons]
          rw [ih]
          simp [hdc]

/-- The country-token frequency described by the claim, written from the
spec's words for comparison: explode each non-sentinel `country` field on
commas, strip each token, and count occurrences of the token `c`. -/
def countryTokenCount (df : List Row) (c : String) : Nat :=
  ((countriesList df).flatMap (fun s => (pySplitSepL ',' [] s.toList).map stripStr)).count c

/-- A cleaned row whose `country` field holds two comma-separated countries. -/
def rowMultiCountry : Row :=
  ⟨some "M", some "Movie", some "No Data", some "No Data", some "A, B",
    some "January 1, 2020", some "PG", some "90 min", some "Drama"⟩

/-- C1 counterexample: the code counts whole `country` strings without
splitting, so on a table whose only row has country `"A, B"` the frequency
table assigns nothing to the token `"A"` even though it occurs once when
exploded — the claimed token-level frequency table is not what the code
computes. -/
theorem claim_C1_counterexample :
    codeCountryCount [rowMultiCountry] "A" = 0 ∧
    countryTokenCount [rowMultiCountry] "A" = 1 ∧
    codeCountryCount [rowMultiCountry] "A" ≠ countryTokenCount [rowMultiCountry] "A" := by
  refine ⟨by decide, by decide, by decide⟩

/-- C1 as amended: the ranking is computed over whole (unsplit) `country`
field values — the sentinel rows are excluded, each remaining record
contributes its full country string once, the frequency table assigns to
each non-sentinel string the number of retained records carrying exactly
that string, and the reported `head(10)` is sorted by count descending with
at most ten entries. -/
theorem claim_C1_country_freq (df : List Row) (c : String) (hc : c ≠ "No Data") :
    codeCountryCount df c = (df.filter (fun r => decide (r.country = some c))).length ∧
    List.Sorted countGE (top_countries df) ∧
    (top_countries df).length ≤ 10 := by
  refine ⟨codeCountryCount_filter c hc df, ?_, ?_⟩
  · have hsorted : List.Sorted countGE (valueCounts (countriesList df)) :=
      List.sorted_insertionSort countGE _
    exact List.Pairwise.sublist (List.take_sublist 10 _) hsorted
  · exact List.length_take_le 10 _

/-- A second cleaned row from the same country as `rowGoodDate`. -/
def rowUS2 : Row :=
  ⟨some "U2", some "Movie", some "No Data", some "No Data", some "US",
    some "March 5, 2019", some "PG", some "80 min", some "Drama"⟩

/-- Witness for the amended C1 at a concrete table. -/
theorem claim_C1_witness :
    codeCountryCount [rowGoodDate, rowUS2, rowMultiCountry] "US" = 2 ∧
    (top_countries [rowGoodDate, rowUS2, rowMultiCountry]).length ≤ 10 := by
  have h := claim_C1_country_freq [rowGoodDate, rowUS2, rowMultiCountry] "US" (by decide)
  exact ⟨by rw [h.1]; decide, h.2.2⟩

/-- A cleaned row whose `cast` field separates two names by a bare comma
(no following space). -/
def rowCastComma : Row :=
  ⟨some "C", some "Movie", some "No Data", some "a,b", some "US",
    some "January 1, 2020", some "PG", some "90 min", some "Drama"⟩

/-- C7 counterexample: the cast column is split on `", "` (comma and space),
not on commas, so a `cast` of `"a,b"` explodes to one token while the
claimed commas-plus-one formula predicts two. -/
theorem claim_C7_counterexample :
    (flatCast [rowCastComma]).length ≠
      ((([rowCastComma].filter (fun r => decide (r.cast ≠ some "No Data"))).filterMap
          (fun r => r.cast)).map (fun s => s.toList.count ',' + 1)).sum := by
  decide

/-- C7 as amended: the total number of exploded genre tokens equals the sum
over retained rows (with a present `listed_in`) of commas-plus-one, as
claimed; the total number of exploded cast tokens equals the sum over
retained non-sentinel rows of the number of `", "` (comma-space) separator
occurrences plus one — not bare commas. Duplicate tokens within one row
each count separately in both totals. -/
theorem claim_C7_explosion_lengths (df : List Row) :
    (allGenres df).length =
      ((df.filterMap (fun r => r.listed_in)).map (fun s => s.toList.count ',' + 1)).sum ∧
    (flatCast df).length =
      (((df.filter (fun r => decide (r.cast ≠ some "No Data"))).filterMap
          (fun r => r.cast)).map (fun s => pyCountSepL ',' [' '] s.toList + 1)).sum := by
  constructor
  · unfold allGenres
    rw [List.length_flatMap]
    have heq : List.length ∘ (fun s : String => (pySplitSepL ',' [] s.toList).map stripStr) =
        fun s : String => s.toList.count ',' + 1 := by
      funext s
      show ((pySplitSepL ',' [] s.toList).map stripStr).length = s.toList.count ',' + 1
      rw [List.length_map, length_pySplitSepL, pyCountSepL_comma]
    rw [heq]
  · unfold flatCast
    rw [List.length_flatMap]
    have heq : List.length ∘ (fun s : String => (pySplitSepL ',' [' '] s.toList).map stripStr) =
        fun s : String => pyCountSepL ',' [' '] s.toList + 1 := by
      funext s
      show ((pySplitSepL ',' [' '] s.toList).map stripStr).length =
        pyCountSepL ',' [' '] s.toList + 1
      rw [List.length_map, length_pySplitSepL]
    rw [heq]

instance {ε α : Type} [DecidableEq ε] [DecidableEq α] : DecidableEq (Except ε α) :=
  fun a b =>
    match a, b with
    | .ok x, .ok y =>
      if h : x = y then isTrue (by rw [h]) else isFalse (by intro he; cases he; exact h rfl)
    | .error e, .error f =>
      if h : e = f then isTrue (by rw [h]) else isFalse (by intro he; cases he; exact h rfl)
    | .ok _, .error _ => isFalse (by intro h; cases h)
    | .error _, .ok _ => isFalse (by intro h; cases h)

/-- C5 counterexample: the Movie duration `"-5 min"` parses to `-5`, the row
survives the `dropna`, and its `duration_int` is negative — the claimed
non-negativity fails. -/
def rowNegDur : Row :=
  ⟨some "Neg", some "Movie", some "No Data", some "No Data", some "US",
    some "January 1, 2020", some "PG", some "-5 min", some "Drama"⟩

theorem claim_C5_counterexample :
    moviesWithDur [rowNegDur] = .ok [(rowNegDur, some (-5 : ℚ))] ∧
    (rowNegDur, some (-5 : ℚ)) ∈
      ([(rowNegDur, some (-5 : ℚ))].filter (fun p => p.2.isSome)) ∧
    ¬(0 : ℚ) ≤ -5 := by
  refine ⟨by decide, by decide, by norm_num⟩

/-- C5 as amended: for every Movie record retained in the duration
aggregation, `duration_int` equals the numeric value of the leading
whitespace-delimited token of the original `duration` string (round-trip);
the non-negativity conjunct of the original claim is dropped. -/
theorem claim_C5_duration_roundtrip (df : List Row) (lst : List (Row × Option ℚ))
    (h : moviesWithDur df = .ok lst) (r : Row) (q : ℚ) (hm : (r, some q) ∈ lst) :
    r ∈ df ∧ r.type = some "Movie" ∧
    ∃ s, r.duration = some s ∧ firstTokL s.toList ≠ [] ∧
      pythonFloatL? (firstTokL s.toList) = some q := by
  rcases exceptMapList_ok_mem h _ hm with ⟨a, hamem, hfa⟩
  rcases List.mem_filter.mp hamem with ⟨hadf, hatype⟩
  cases hpd : parse_movie_duration (toPyVal a.duration) with
  | error e => rw [hpd] at hfa; simp [Except.map] at hfa
  | ok v =>
    rw [hpd] at hfa
    simp only [Except.map, Except.ok.injEq, Prod.mk.injEq] at hfa
    obtain ⟨har, hv⟩ := hfa
    subst har
    subst hv
    refine ⟨hadf, of_decide_eq_true hatype, ?_⟩
    cases hdur : a.duration with
    | none => rw [hdur] at hpd; simp [toPyVal, parse_movie_duration] at hpd
    | some s =>
      rw [hdur] at hpd
      simp only [toPyVal] at hpd
      obtain ⟨hne, hq⟩ := parse_movie_ok_some hpd
      exact ⟨s, rfl, hne, hq⟩

/-- A Movie row with a well-formed duration. -/
def rowM90 : Row :=
  ⟨some "M90", some "Movie", some "No Data", some "No Data", some "US",
    some "January 1, 2020", some "PG", some "90 min", some "Drama"⟩

/-- Witness for the amended C5 at a concrete table. -/
theorem claim_C5_witness :
    rowM90 ∈ [rowM90] ∧ rowM90.type = some "Movie" := by
  have h := claim_C5_duration_roundtrip [rowM90] [(rowM90, some (90 : ℚ))]
    (by decide) rowM90 90 (by decide)
  exact ⟨h.1, h.2.1⟩

/-- C6 counterexample: the TV Show duration `"0 Seasons"` parses to `0`, the
row survives the `dropna`, and `0` is not positive — the claimed
positivity fails. -/
def rowZeroSeasons : Row :=
  ⟨some "Z", some "TV Show", some "No Data", some "No Data", some "US",
    some "January 1, 2020", some "PG", some "0 Seasons", some "Drama"⟩

theorem claim_C6_counterexample :
    showsWithSeasons [rowZeroSeasons] = .ok [(rowZeroSeasons, some (0 : Int))] ∧
    (rowZeroSeasons, some (0 : Int)) ∈
      ([(rowZeroSeasons, some (0 : Int))].filter (fun p => p.2.isSome)) ∧
    ¬(0 : Int) > 0 := by
  refine ⟨by decide, by decide, by omega⟩

/-- C6 as amended: for every TVShow record retained in the season
aggregation, `seasons` is an integer (not necessarily positive) equal to
the integer value of the leading whitespace-delimited token of the original
`duration` string, and a string is accepted exactly when that leading token
is an optionally signed integer numeral and the string contains the
substring `"Season"` (regardless of singular/plural suffix). -/
theorem claim_C6_seasons (df : List Row) (lst : List (Row × Option Int))
    (h : showsWithSeasons df = .ok lst) (r : Row) (n : Int) (hm : (r, some n) ∈ lst) :
    (r ∈ df ∧ r.type = some "TV Show" ∧
      ∃ s, r.duration = some s ∧ pyContainsL "Season".toList s.toList = true ∧
        pythonIntL? (firstTokL s.toList) = some n) ∧
    (∀ (s₀ : String) (n₀ : Int),
      parse_seasons (.str s₀) = .ok (some n₀) ↔
        (pyContainsL "Season".toList s₀.toList = true ∧
          pythonIntL? (firstTokL s₀.toList) = some n₀)) := by
  refine ⟨?_, fun s₀ n₀ => parse_seasons_ok_some s₀ n₀⟩
  rcases exceptMapList_ok_mem h _ hm with ⟨a, hamem, hfa⟩
  rcases List.mem_filter.mp hamem with ⟨hadf, hatype⟩
  cases hpd : parse_seasons (toPyVal a.duration) with
  | error e => rw [hpd] at hfa; simp [Except.map] at hfa
  | ok v =>
    rw [hpd] at hfa
    simp only [Except.map, Except.ok.injEq, Prod.mk.injEq] at hfa
    obtain ⟨har, hv⟩ := hfa
    subst har
    subst hv
    refine ⟨hadf, of_decide_eq_true hatype, ?_⟩
    cases hdur : a.duration with
    | none => rw [hdur] at hpd; simp [toPyVal, parse_seasons] at hpd
    | some s =>
      rw [hdur] at hpd
      simp only [toPyVal] at hpd
      obtain ⟨hcon, hint⟩ := (parse_seasons_ok_some s n).mp hpd
      exact ⟨s, rfl, hcon, hint⟩

/-- A TV Show row with a well-formed season count. -/
def rowS3 : Row :=
  ⟨some "S3", some "TV Show", some "No Data", some "No Data", some "US",
    some "January 1, 2020", some "PG", some "3 Seasons", some "Drama"⟩

/-- Witness for the amended C6 at a concrete table. -/
theorem claim_C6_witness :
    rowS3 ∈ [rowS3] ∧ rowS3.type = some "TV Show" := by
  have h := claim_C6_seasons [rowS3] [(rowS3, some (3 : Int))]
    (by decide) rowS3 3 (by decide)
  exact ⟨h.1.1, h.1.2.1⟩

/-- A row whose retained pair in the derived movie table is fully determined:
membership in the post-`dropna` `df_movies` forces the pair's second
component to be the row's own parse result. -/
theorem mem_movies_filter {df : List Row} {l : List (Row × Option ℚ)}
    (hok : moviesWithDur df = .ok l) {r : Row} {q : Option ℚ}
    (hmem : (r, q) ∈ l.filter (fun p => p.2.isSome)) :
    parse_movie_duration (toPyVal r.duration) = .ok q ∧ q.isSome := by
  rcases List.mem_filter.mp hmem with ⟨hl, hsome⟩
  rcases exceptMapList_ok_mem hok _ hl with ⟨a, _, hfa⟩
  cases hpd : parse_movie_duration (toPyVal a.duration) with
  | error e => rw [hpd] at hfa; simp [Except.map] at hfa
  | ok v =>
    rw [hpd] at hfa
    simp only [Except.map, Except.ok.injEq, Prod.mk.injEq] at hfa
    obtain ⟨har, hv⟩ := hfa
    subst har
    subst hv
    exact ⟨hpd, hsome⟩

/-- Season analogue of `mem_movies_filter`. -/
theorem mem_shows_filter {df : List Row} {l : List (Row × Option Int)}
    (hok : showsWithSeasons df = .ok l) {r : Row} {n : Option Int}
    (hmem : (r, n) ∈ l.filter (fun p => p.2.isSome)) :
    parse_seasons (toPyVal r.duration) = .ok n ∧ n.isSome := by
  rcases List.mem_filter.mp hmem with ⟨hl, hsome⟩
  rcases exceptMapList_ok_mem hok _ hl with ⟨a, _, hfa⟩
  cases hpd : parse_seasons (toPyVal a.duration) with
  | error e => rw [hpd] at hfa; simp [Except.map] at hfa
  | ok v =>
    rw [hpd] at hfa
    simp only [Except.map, Except.ok.injEq, Prod.mk.injEq] at hfa
    obtain ⟨har, hv⟩ := hfa
    subst har
    subst hv
    exact ⟨hpd, hsome⟩

/-- C9: the duration/season extraction cells operate on copies — after both
steps the main cleaned table `df` is unchanged (so every aggregation
computed from it is unchanged), and a record whose `duration` fails to
parse is excluded only from the corresponding derived table while remaining
in `df`. -/
theorem claim_C9_frame (st st₁ st₂ : NBState)
    (h₁ : movieStep st = .ok st₁) (h₂ : showStep st₁ = .ok st₂) :
    st₁.df = st.df ∧ st₂.df = st.df ∧
    allGenres st₂.df = allGenres st.df ∧
    flatCast st₂.df = flatCast st.df ∧
    countriesList st₂.df = countriesList st.df ∧
    (∀ r ∈ st.df, r.type = some "Movie" →
      parse_movie_duration (toPyVal r.duration) = .ok none →
      (∀ q, (r, q) ∉ st₁.df_movies) ∧ r ∈ st₂.df) ∧
    (∀ r ∈ st.df, r.type = some "TV Show" →
      parse_seasons (toPyVal r.duration) = .ok none →
      (∀ n, (r, n) ∉ st₂.df_shows) ∧ r ∈ st₂.df) := by
  cases hmv : moviesWithDur st.df with
  | error e => unfold movieStep at h₁; rw [hmv] at h₁; cases h₁
  | ok lm =>
    unfold movieStep at h₁
    rw [hmv] at h₁
    simp only [Except.ok.injEq] at h₁
    subst h₁
    cases hsh : showsWithSeasons st.df with
    | error e => unfold showStep at h₂; rw [hsh] at h₂; cases h₂
    | ok ls =>
      unfold showStep at h₂
      rw [hsh] at h₂
      simp only [Except.ok.injEq] at h₂
      subst h₂
      refine ⟨rfl, rfl, rfl, rfl, rfl, ?_, ?_⟩
      · intro r hr _ hfail
        refine ⟨?_, hr⟩
        intro q hq
        have := mem_movies_filter hmv hq
        rw [hfail] at this
        obtain ⟨h2, h3⟩ := this
        cases h2
        simp at h3
      · intro r hr _ hfail
        refine ⟨?_, hr⟩
        intro n hn
        have := mem_shows_filter hsh hn
        rw [hfail] at this
        obtain ⟨h2, h3⟩ := this
        cases h2
        simp at h3

/-- A Movie row whose duration does not match `"<number> min"` and degrades
to the null marker. -/
def rowBadMin : Row :=
  ⟨some "B", some "Movie", some "No Data", some "No Data", some "US",
    some "January 1, 2020", some "PG", some "90 mins", some "Drama"⟩

/-- The notebook state entering the extraction cells in the witness run. -/
def stFrame : NBState := ⟨[rowBadMin], [], []⟩

/-- Witness for C9 at a concrete state: the failed row is absent from the
movie table but still present in `df`. -/
theorem claim_C9_witness :
    (rowBadMin, some (90 : ℚ)) ∉ stFrame.df_movies ∧ rowBadMin ∈ stFrame.df := by
  have h := claim_C9_frame stFrame stFrame stFrame (by decide) (by decide)
  have h6 := h.2.2.2.2.2.1 rowBadMin (by decide) (by decide) (by decide)
  exact ⟨h6.1 (some 90), h6.2⟩

end NetflixEDA
